import Mathlib

/-!
Shallow embedding of `src/console/src/views/LinkList.vue` from the
`plugin-links` repository: the data model (`Link`, `LinkGroup`), the fetch /
reorder / navigation / export / group-assignment handlers, and the search
view.  Reactive `ref` state is passed explicitly; each handler is a pure
function from its read state (plus the outcome of external HTTP calls,
supplied as parameters) to its written state and the list of requests it
issues.  JavaScript's stable `Array.prototype.sort` is modelled by a stable
insertion sort; promises that are fired without `await` are modelled by a
small try/catch evaluator distinguishing awaited from non-awaited calls.
-/

/-- The `metadata` of a Halo resource as used in the component. -/
structure LinkMetadata where
  name : String
  creationTimestamp : Option String := none
  deletionTimestamp : Option String := none
deriving Repr, DecidableEq

/-- The `Link.spec` record: `priority` is optional in the wire format (`priority?: number`),
mirrored by `Option Nat`. -/
structure LinkSpec where
  displayName : String := ""
  url : String := ""
  description : String := ""
  logo : String := ""
  priority : Option Nat := none
deriving Repr, DecidableEq

/-- A link resource.  The component guards `if (link.spec)`, so `spec` is
modelled as optional. -/
structure Link where
  metadata : LinkMetadata
  spec : Option LinkSpec := none
deriving Repr, DecidableEq

/-- The `LinkGroup.spec` record.  `handleFetchLinks` guards on
`selectedGroup.value?.spec?.links`, so `links` is modelled as optional. -/
structure LinkGroupSpec where
  displayName : String := ""
  priority : Option Nat := none
  links : Option (List String) := none
deriving Repr, DecidableEq

/-- A link-group resource; `spec` optional because the component dereferences
it with `?.`. -/
structure LinkGroup where
  metadata : LinkMetadata
  spec : Option LinkGroupSpec := none
deriving Repr, DecidableEq

/-- The `links` ref: a `LinkList` page object. -/
structure LinkListPage where
  page : Nat
  size : Nat
  total : Nat
  items : List Link
  first : Bool
  last : Bool
  hasNext : Bool
  hasPrevious : Bool
  totalPages : Nat
deriving Repr, DecidableEq

/-- HTTP requests the component issues through `apiClient`. -/
inductive Request where
  | listLinks (page size : Nat) (fieldSelector : String)
  | putLink (name : String) (body : Link)
  | putGroup (name : String) (body : LinkGroup)
  | deleteLink (name : String)
deriving Repr, DecidableEq

/-! ## Stable sort

`data.items.sort((a, b) => (a.spec?.priority || 0) - (b.spec?.priority || 0))`
uses JavaScript's `Array.prototype.sort`, which the ECMAScript specification
requires to be stable.  Any stable sort is observationally identical for a
consistent comparator; we use a stable insertion sort. -/

/-- The comparator key: `link.spec?.priority || 0`. -/
def sortKey (l : Link) : Nat :=
  (l.spec.bind (·.priority)).getD 0

/-- Insert `x` before the first already-placed element whose key is
`≥ sortKey x`.  In `sortByPriority (x :: xs) = insertStable x (sortByPriority xs)`
the elements of `xs` follow `x` in the input, so placing `x` before equal
keys preserves the input's relative order on ties: stability. -/
def insertStable (x : Link) : List Link → List Link
  | [] => [x]
  | y :: ys => if sortKey y < sortKey x then y :: insertStable x ys else x :: y :: ys

/-- Stable sort ascending by `sortKey`. -/
def sortByPriority : List Link → List Link
  | [] => []
  | x :: xs => insertStable x (sortByPriority xs)

/-- Defaulting `link.spec.priority = link.spec.priority || 0` applied when `link.spec`
is present (the `map` body at lines 82–87). -/
def defaultPriority (l : Link) : Link :=
  match l.spec with
  | some s => { l with spec := some { s with priority := some (s.priority.getD 0) } }
  | none => l

/-! ## handleFetchLinks (lines 54–97) -/

/-- The options argument of `handleFetchLinks`. -/
structure FetchOptions where
  mute : Bool := false
  page : Option Nat := none
deriving Repr, DecidableEq

/-- Everything `handleFetchLinks` writes, plus the request it issued (if any)
and whether it logged an error. `loadingShown` records whether the loading
flag was set to `true` at the start of the call (it is always reset to
`false` by the `finally` block). -/
structure FetchOutcome where
  links : LinkListPage
  loading : Bool
  loadingShown : Bool
  request : Option Request
  logged : Bool
deriving Repr, DecidableEq

/-- The `fieldSelector` string built at line 74. -/
def membershipSelector (names : List String) : String :=
  "name=(" ++ String.intercalate "," names ++ ")"

/-- Handler `handleFetchLinks`: sets loading unless muted, applies `options.page`,
returns early (through `finally`) when `selectedGroup.value?.spec?.links` is
absent, otherwise issues the list request; on success replaces the page with
the response, defaulting each present spec's priority and sorting stably by
priority; on failure logs and leaves the page as it was.  The `response`
parameter is the outcome of the awaited HTTP call. -/
def handleFetchLinks (links0 : LinkListPage) (selectedGroup : Option LinkGroup)
    (opts : FetchOptions) (response : Except Unit LinkListPage) : FetchOutcome :=
  let links1 := match opts.page with
    | some p => { links0 with page := p }
    | none => links0
  match selectedGroup.bind (·.spec) |>.bind (·.links) with
  | none =>
      { links := links1, loading := false, loadingShown := !opts.mute
        request := none, logged := false }
  | some names =>
      let req := Request.listLinks links1.page links1.size (membershipSelector names)
      match response with
      | .ok data =>
          { links := { data with items := sortByPriority (data.items.map defaultPriority) }
            loading := false, loadingShown := !opts.mute
            request := some req, logged := false }
      | .error _ =>
          { links := links1, loading := false, loadingShown := !opts.mute
            request := some req, logged := true }

/-! ## Async try/catch model

`handleSaveInBatch` and `handleDelete` wrap their requests in
`try … catch … finally`.  A call written without `await` only creates a
promise: its rejection is never observed inside the `try` block, while the
rejection of an awaited promise (or of `await Promise.all`) is.  We model a
`try` block as a list of steps and evaluate it against an arbitrary failure
predicate on requests. -/

inductive AsyncStep where
  /-- Issue the request without awaiting its promise. -/
  | fire (r : Request)
  /-- Models `await Promise.all` over the promises of the given (already issued)
  requests: throws iff any of them fails; issues nothing new. -/
  | awaitAll (rs : List Request)
deriving Repr, DecidableEq

/-- Run a `try` block: returns the requests actually issued and whether an
exception reached the `catch` clause. -/
def runTryBlock (fails : Request → Bool) : List AsyncStep → List Request × Bool
  | [] => ([], false)
  | .fire r :: rest =>
      let (rs, err) := runTryBlock fails rest
      (r :: rs, err)
  | .awaitAll rs :: rest =>
      if rs.any fails then ([], true)
      else runTryBlock fails rest

/-! ## handleSaveInBatch (lines 144–163) -/

/-- The body of the `map` at lines 146–154: mutate `link.spec.priority` to
the item's index when `spec` is present. -/
def setPriorityAt (i : Nat) (l : Link) : Link :=
  match l.spec with
  | some s => { l with spec := some { s with priority := some i } }
  | none => l

/-- The in-place mutated items after the indexed `map` ran, processing the
suffix whose first element has index `k`. -/
def batchUpdatedItemsFrom (k : Nat) : List Link → List Link
  | [] => []
  | l :: ls => setPriorityAt k l :: batchUpdatedItemsFrom (k + 1) ls

/-- The in-place mutated items after the `map` ran. -/
def batchUpdatedItems (items : List Link) : List Link :=
  batchUpdatedItemsFrom 0 items

/-- The `PUT /links/{name}` requests created by the indexed `map`, one per
item, whose body is the mutated link. -/
def batchPutRequestsFrom (k : Nat) : List Link → List Request
  | [] => []
  | l :: ls =>
      Request.putLink (setPriorityAt k l).metadata.name (setPriorityAt k l)
        :: batchPutRequestsFrom (k + 1) ls

/-- All `PUT` requests of the batch save, one per item of the page. -/
def batchPutRequests (items : List Link) : List Request :=
  batchPutRequestsFrom 0 items

/-- Result of `handleSaveInBatch`: the mutated page items, the requests the
`try` block issued, whether the `catch` clause ran, and the options of the
`handleFetchLinks` call made by `finally` (always, whatever happened). -/
structure BatchSaveRun where
  items : List Link
  issued : List Request
  caught : Bool
  refetch : FetchOptions
deriving Repr, DecidableEq

/-- Handler `handleSaveInBatch`: the `map` mutates priorities and creates one `PUT`
per item; `await Promise.all(promises)` surfaces any failure to `catch`
(which only logs); `finally` awaits `handleFetchLinks({ mute: true })`. -/
def handleSaveInBatch (items : List Link) (fails : Request → Bool) : BatchSaveRun :=
  let puts := batchPutRequests items
  let (issued, err) := runTryBlock fails ((puts.map .fire) ++ [.awaitAll puts])
  { items := batchUpdatedItems items
    issued := issued
    caught := err
    refetch := { mute := true } }

/-- Folding the issued `PUT` bodies into a server-side store
(name ↦ stored link); later writes win, as on a server processing each
request. -/
def applyPuts (store : String → Option Link) : List Request → (String → Option Link)
  | [] => store
  | .putLink n body :: rest => applyPuts (fun m => if m = n then some body else store m) rest
  | _ :: rest => applyPuts store rest

/-! ## onLinkSaved (lines 165–179) -/

/-- Effects of `onLinkSaved`, in program order. -/
inductive SaveStep where
  | put (r : Request)
  | fetchGroups
  | fetchLinks (opts : FetchOptions)
deriving Repr, DecidableEq

/-- Handler `onLinkSaved`: deep-copies the selected group; when one is selected,
pushes the new link's name onto `spec.links` and `PUT`s the whole group;
then refetches groups and links.  `groupToUpdate.spec.links.push` throws a
`TypeError` when `spec` or `links` is absent, modelled by `Except`. -/
def onLinkSaved (selectedGroup : Option LinkGroup) (linkName : String) :
    Except String (List SaveStep) :=
  match selectedGroup with
  | none => .ok [.fetchGroups, .fetchLinks {}]
  | some g =>
      match g.spec with
      | none => .error "TypeError: cannot read spec.links of undefined"
      | some s =>
          match s.links with
          | none => .error "TypeError: cannot push onto undefined links"
          | some ls =>
              let g' : LinkGroup :=
                { g with spec := some { s with links := some (ls ++ [linkName]) } }
              .ok [.put (Request.putGroup g'.metadata.name g'), .fetchGroups,
                   .fetchLinks {}]

/-! ## handleDelete (lines 181–198) -/

/-- Result of the `onConfirm` closure of `handleDelete`. -/
structure DeleteRun where
  issued : List Request
  caught : Bool
  refetch : FetchOptions
deriving Repr, DecidableEq

/-- Handler `handleDelete`, its confirm closure: `apiClient.delete(...)` is **not**
awaited, so its promise is only fired inside the `try` block; `finally`
calls `handleFetchLinks()` (unmuted, no page argument). -/
def handleDeleteConfirm (link : Link) (fails : Request → Bool) : DeleteRun :=
  let (issued, err) := runTryBlock fails [.fire (Request.deleteLink link.metadata.name)]
  { issued := issued, caught := err, refetch := {} }

/-! ## handleSelectPrevious / handleSelectNext (lines 111–137) -/

/-- Models `findIndex((link) => link.metadata.name === selectedLink.value?.metadata.name)`:
`-1` when not found; comparing a string against `undefined` is `false`. -/
def findIndexJS (items : List Link) (target : Option String) : Int :=
  match items.findIdx? (fun l => some l.metadata.name == target) with
  | some i => (i : Int)
  | none => -1

/-- Handler `handleSelectPrevious`: index `> 0` selects the previous item; index
`≤ 0` (first item, or nothing selected / not found) clears the selection. -/
def handleSelectPrevious (items : List Link) (selected : Option Link) : Option Link :=
  let ci := findIndexJS items (selected.map (·.metadata.name))
  if ci > 0 then items[(ci - 1).toNat]?
  else none

/-- Handler `handleSelectNext`: with no selection, selects `items[0]` (which is
`undefined` on an empty page); otherwise moves to `items[currentIndex + 1]`
unless `currentIndex` is the last index, in which case nothing is assigned
and the selection is left as it was. -/
def handleSelectNext (items : List Link) (selected : Option Link) : Option Link :=
  match selected with
  | none => items[0]?
  | some l =>
      let ci := findIndexJS items (some l.metadata.name)
      if ci ≠ (items.length : Int) - 1 then items[(ci + 1).toNat]?
      else some l

/-! ## searchResults (lines 299–328)

JavaScript arrays hold references; `fuse.search(keyword).map((item) => item.item)`
returns the *same* objects that were indexed, not copies.  To state object
identity we model the heap explicitly: links live in a store addressed by
`Nat`, the page and the search view are lists of addresses.  Fuse, built by
`new Fuse(links.value.items, …)`, is abstracted by its ranking function
`search : String → List Nat`, returning positions into the indexed array in
match-quality order (the guarantee of the external library is only that each
result's `item` field is one of the indexed elements, i.e. a valid
position). -/

/-- A heap of link objects: the address of a link is its index in `store`. -/
structure LinkHeap where
  store : List Link
deriving Repr, DecidableEq

/-- Dereference an address. -/
def LinkHeap.deref (h : LinkHeap) (a : Nat) : Option Link :=
  h.store[a]?

/-- Mutate the object at address `a` in place. -/
def LinkHeap.mutate (h : LinkHeap) (a : Nat) (f : Link → Link) : LinkHeap :=
  match h.store[a]? with
  | some l => { store := h.store.set a (f l) }
  | none => h

/-- The getter of the `searchResults` computed ref: with no index built yet or
an empty keyword it returns `links.value.items` itself; otherwise it maps the
Fuse results (positions into the indexed page) back to the page's elements —
here, to the very same addresses. -/
def searchResultsGet (pageRefs : List Nat) (keyword : String)
    (fuse : Option (String → List Nat)) : List Nat :=
  match fuse with
  | none => pageRefs
  | some search =>
      if keyword = "" then pageRefs
      else (search keyword).filterMap fun i => pageRefs[i]?

/-! ## handleExportSelectedLinks (lines 222–240) -/

/-- The records kept by
`items.map(l => selected.includes(name) ? stringify(l) : undefined).filter(l => l)`:
the `filter(l => l)` drops both `undefined` entries (unselected items) and
falsy strings (an empty serialization).  `stringify` abstracts
`yaml.stringify`. -/
def exportRecords (items : List Link) (selectedLinks : List String)
    (stringify : Link → String) : List String :=
  (items.map fun l =>
      if selectedLinks.contains l.metadata.name then some (stringify l) else none)
    |>.filterMap fun o => o.bind fun s => if s = "" then none else some s

/-- Handler `handleExportSelectedLinks`: returns early when the page holds no items
(no document, no download); otherwise downloads the records joined by
`"---\n"` (one YAML document per record). -/
def handleExportSelectedLinks (items : List Link) (selectedLinks : List String)
    (stringify : Link → String) : Option String :=
  if items.length = 0 then none
  else some (String.intercalate "---\n" (exportRecords items selectedLinks stringify))

/-! ## Sample fixtures used by concrete witnesses -/

/-- The initial value of the `links` ref (lines 34–44). -/
def initialPage : LinkListPage :=
  { page := 1, size := 20, total := 0, items := [], first := true, last := false
    hasNext := false, hasPrevious := false, totalPages := 0 }

def sampleSpecA : LinkSpec := { displayName := "A", url := "https://a" }

def sampleSpecB : LinkSpec := { displayName := "B", url := "https://b", priority := some 0 }

def sampleLinkA : Link := { metadata := { name := "link-a" }, spec := some sampleSpecA }

def sampleLinkB : Link := { metadata := { name := "link-b" }, spec := some sampleSpecB }

def sampleGroupSpec : LinkGroupSpec :=
  { displayName := "G", links := some ["link-a", "link-b"] }

def sampleGroup : LinkGroup := { metadata := { name := "group-g" }, spec := some sampleGroupSpec }

/-- A server response page holding `sampleLinkB` then `sampleLinkA`. -/
def samplePage : LinkListPage :=
  { initialPage with total := 2, items := [sampleLinkB, sampleLinkA] }

/-! ## Helper lemmas on the stable sort -/

theorem insertStable_perm (x : Link) (l : List Link) :
    List.Perm (insertStable x l) (x :: l) := by
  induction l with
  | nil => rfl
  | cons y ys ih =>
      simp only [insertStable]
      split
      · exact ((ih.cons y).trans (List.Perm.swap x y ys))
      · rfl

theorem sortByPriority_perm (l : List Link) : List.Perm (sortByPriority l) l := by
  induction l with
  | nil => rfl
  | cons x xs ih =>
      simpa [sortByPriority] using (insertStable_perm x (sortByPriority xs)).trans (ih.cons x)

theorem insertStable_pairwise (x : Link) (l : List Link)
    (h : l.Pairwise (fun a b => sortKey a ≤ sortKey b)) :
    (insertStable x l).Pairwise (fun a b => sortKey a ≤ sortKey b) := by
  induction l with
  | nil => simp [insertStable]
  | cons y ys ih =>
      rcases List.pairwise_cons.mp h with ⟨hy, hys⟩
      simp only [insertStable]
      split
      · rename_i hlt
        refine List.pairwise_cons.mpr ⟨?_, ih hys⟩
        intro b hb
        rcases List.mem_cons.mp ((insertStable_perm x ys).mem_iff.mp hb) with rfl | hb
        · exact Nat.le_of_lt hlt
        · exact hy b hb
      · rename_i hge
        refine List.pairwise_cons.mpr ⟨?_, h⟩
        intro b hb
        rcases List.mem_cons.mp hb with rfl | hb
        · exact Nat.le_of_not_lt hge
        · exact le_trans (Nat.le_of_not_lt hge) (hy b hb)

theorem sortByPriority_sorted (l : List Link) :
    (sortByPriority l).Pairwise (fun a b => sortKey a ≤ sortKey b) := by
  induction l with
  | nil => simp [sortByPriority]
  | cons x xs ih => exact insertStable_pairwise x (sortByPriority xs) ih

theorem filter_insertStable (x : Link) (l : List Link) (p : Nat) :
    (insertStable x l).filter (fun y => sortKey y == p) =
      if sortKey x = p then x :: l.filter (fun y => sortKey y == p)
      else l.filter (fun y => sortKey y == p) := by
  induction l with
  | nil =>
      by_cases hx : sortKey x = p <;> simp [insertStable, List.filter_cons, hx]
  | cons y ys ih =>
      simp only [insertStable]
      split
      · rename_i hlt
        by_cases hx : sortKey x = p
        · have hy : ¬ (sortKey y = p) := by omega
          simp [List.filter_cons, hx, hy, ih]
        · by_cases hy : sortKey y = p <;>
            simp [List.filter_cons, hx, hy, ih]
      · by_cases hx : sortKey x = p <;> simp [List.filter_cons, hx]

theorem filter_sortByPriority (l : List Link) (p : Nat) :
    (sortByPriority l).filter (fun y => sortKey y == p) =
      l.filter (fun y => sortKey y == p) := by
  induction l with
  | nil => rfl
  | cons x xs ih =>
      simp only [sortByPriority, filter_insertStable, ih]
      by_cases hx : sortKey x = p <;> simp [List.filter_cons, hx]

/-! ## Helper lemmas for the batch save -/

theorem setPriorityAt_metadata (i : Nat) (l : Link) :
    (setPriorityAt i l).metadata = l.metadata := by
  unfold setPriorityAt
  cases l.spec <;> rfl

theorem setPriorityAt_spec (i : Nat) (l : Link) (s : LinkSpec) (h : l.spec = some s) :
    (setPriorityAt i l).spec = some { s with priority := some i } := by
  simp [setPriorityAt, h]

theorem batchUpdatedItemsFrom_length (k : Nat) (items : List Link) :
    (batchUpdatedItemsFrom k items).length = items.length := by
  induction items generalizing k with
  | nil => rfl
  | cons l ls ih => simp [batchUpdatedItemsFrom, ih]

theorem batchUpdatedItemsFrom_getElem? (k i : Nat) (items : List Link) :
    (batchUpdatedItemsFrom k items)[i]? = items[i]?.map (setPriorityAt (k + i)) := by
  induction items generalizing k i with
  | nil => simp [batchUpdatedItemsFrom]
  | cons l ls ih =>
      cases i with
      | zero => simp [batchUpdatedItemsFrom]
      | succ j =>
          simp only [batchUpdatedItemsFrom, List.getElem?_cons_succ, ih (k + 1) j]
          have : k + 1 + j = k + (j + 1) := by omega
          rw [this]

theorem batchPutRequestsFrom_length (k : Nat) (items : List Link) :
    (batchPutRequestsFrom k items).length = items.length := by
  induction items generalizing k with
  | nil => rfl
  | cons l ls ih => simp [batchPutRequestsFrom, ih]

theorem batchPutRequestsFrom_getElem? (k i : Nat) (items : List Link) :
    (batchPutRequestsFrom k items)[i]? = items[i]?.map fun l =>
      Request.putLink (setPriorityAt (k + i) l).metadata.name (setPriorityAt (k + i) l) := by
  induction items generalizing k i with
  | nil => simp [batchPutRequestsFrom]
  | cons l ls ih =>
      cases i with
      | zero => simp [batchPutRequestsFrom]
      | succ j =>
          simp only [batchPutRequestsFrom, List.getElem?_cons_succ, ih (k + 1) j]
          have : k + 1 + j = k + (j + 1) := by omega
          rw [this]

theorem runTryBlock_fires (fails : Request → Bool) (rs : List Request)
    (tail : List AsyncStep) :
    runTryBlock fails (rs.map .fire ++ tail) =
      (rs ++ (runTryBlock fails tail).1, (runTryBlock fails tail).2) := by
  induction rs with
  | nil => simp
  | cons r rest ih => simp [runTryBlock, ih]

theorem handleSaveInBatch_issued (items : List Link) (fails : Request → Bool) :
    (handleSaveInBatch items fails).issued = batchPutRequests items := by
  simp [handleSaveInBatch, runTryBlock_fires, runTryBlock]
  split <;> simp

/-- A request list containing no `putLink` for name `m` leaves `store m`
untouched. -/
theorem applyPuts_of_not_mem (m : String) (rs : List Request)
    (h : ∀ b, Request.putLink m b ∉ rs) (store : String → Option Link) :
    applyPuts store rs m = store m := by
  induction rs generalizing store with
  | nil => rfl
  | cons r rest ih =>
      cases r with
      | putLink n b =>
          have hm : m ≠ n := by
            intro hmn
            exact h b (by simp [hmn])
          simp only [applyPuts]
          rw [ih (fun b' hb' => h b' (List.mem_cons_of_mem _ hb'))]
          simp [hm]
      | listLinks p s f => exact ih (fun b' hb' => h b' (List.mem_cons_of_mem _ hb')) store
      | putGroup n g => exact ih (fun b' hb' => h b' (List.mem_cons_of_mem _ hb')) store
      | deleteLink n => exact ih (fun b' hb' => h b' (List.mem_cons_of_mem _ hb')) store

theorem mem_of_getElemEq {α : Type} {l : List α} {i : Nat} {a : α}
    (h : l[i]? = some a) : a ∈ l := by
  rcases List.getElem?_eq_some.mp h with ⟨hlt, rfl⟩
  exact List.getElem_mem hlt

theorem mem_batchPutRequestsFrom (k : Nat) (items : List Link) (r : Request)
    (h : r ∈ batchPutRequestsFrom k items) :
    ∃ j l, items[j]? = some l ∧ r = Request.putLink l.metadata.name (setPriorityAt (k + j) l) := by
  induction items generalizing k with
  | nil => simp [batchPutRequestsFrom] at h
  | cons x xs ih =>
      simp only [batchPutRequestsFrom, List.mem_cons] at h
      rcases h with rfl | h
      · exact ⟨0, x, by simp, by simp [setPriorityAt_metadata]⟩
      · rcases ih (k + 1) h with ⟨j, l, hj, hr⟩
        refine ⟨j + 1, l, by simpa using hj, ?_⟩
        rw [hr]
        have harith : k + 1 + j = k + (j + 1) := by omega
        rw [harith]

/-- Replaying the batch's `PUT`s against a store: when link names are unique
on the page, the item at position `i` ends up stored with priority `i`. -/
theorem applyPuts_batchFrom (items : List Link) (k : Nat)
    (h : (items.map (·.metadata.name)).Nodup) (store : String → Option Link)
    (i : Nat) (l : Link) (hi : items[i]? = some l) :
    applyPuts store (batchPutRequestsFrom k items) l.metadata.name =
      some (setPriorityAt (k + i) l) := by
  induction items generalizing k store i with
  | nil => simp at hi
  | cons x xs ih =>
      have hnames := h
      simp only [List.map_cons, List.nodup_cons] at hnames
      cases i with
      | zero =>
          simp only [List.getElem?_cons_zero, Option.some.injEq] at hi
          subst hi
          simp only [batchPutRequestsFrom, applyPuts, setPriorityAt_metadata]
          rw [applyPuts_of_not_mem]
          · simp
          · intro b hb
            rcases mem_batchPutRequestsFrom (k + 1) xs _ hb with ⟨j, l', hj, hr⟩
            injection hr with hname _
            exact hnames.1 (hname ▸ List.mem_map_of_mem _ (mem_of_getElemEq hj))
      | succ j =>
          simp only [List.getElem?_cons_succ] at hi
          simp only [batchPutRequestsFrom, applyPuts, setPriorityAt_metadata]
          have harith : k + 1 + j = k + (j + 1) := by omega
          have hres := ih (k + 1) hnames.2
            (fun m => if m = x.metadata.name then some (setPriorityAt k x) else store m) j hi
          rw [harith] at hres
          exact hres

theorem handleSaveInBatch_items (items : List Link) (fails : Request → Bool) :
    (handleSaveInBatch items fails).items = batchUpdatedItems items := by
  simp only [handleSaveInBatch]

theorem handleSaveInBatch_refetch (items : List Link) (fails : Request → Bool) :
    (handleSaveInBatch items fails).refetch = { mute := true } := by
  simp only [handleSaveInBatch]

/-! ## C1 -/

/-- C1: Reorder persistence (`handleSaveInBatch`).  For the displayed sequence:
every item whose `spec` is present gets `priority` mutated in place to its
zero-based index; exactly one `PUT` per item is issued, carrying the mutated
item; the `finally` clause requests a muted refetch whatever the failure
pattern of the `PUT`s; and replaying the issued `PUT`s against any server
store leaves, for a page with unique names, each item persisted with its
positional priority. -/
theorem reorder_persists_positional_priorities (items : List Link)
    (fails : Request → Bool) (store : String → Option Link) :
    (∀ i l, items[i]? = some l →
        (handleSaveInBatch items fails).items[i]? = some (setPriorityAt i l)
        ∧ ∀ s, l.spec = some s → (setPriorityAt i l).spec = some { s with priority := some i })
    ∧ (handleSaveInBatch items fails).issued.length = items.length
    ∧ (∀ i l, items[i]? = some l →
        (handleSaveInBatch items fails).issued[i]? =
          some (Request.putLink l.metadata.name (setPriorityAt i l)))
    ∧ (handleSaveInBatch items fails).refetch = { mute := true }
    ∧ ((items.map (·.metadata.name)).Nodup →
        ∀ i l, items[i]? = some l →
          applyPuts store (handleSaveInBatch items fails).issued l.metadata.name =
            some (setPriorityAt i l)) := by
  refine ⟨?_, ?_, ?_, handleSaveInBatch_refetch items fails, ?_⟩
  · intro i l hi
    refine ⟨?_, fun s hs => setPriorityAt_spec i l s hs⟩
    rw [handleSaveInBatch_items]
    unfold batchUpdatedItems
    rw [batchUpdatedItemsFrom_getElem?]
    simp [hi]
  · rw [handleSaveInBatch_issued]
    exact batchPutRequestsFrom_length 0 items
  · intro i l hi
    rw [handleSaveInBatch_issued]
    unfold batchPutRequests
    rw [batchPutRequestsFrom_getElem?]
    simp [hi, setPriorityAt_metadata]
  · intro hnd i l hi
    rw [handleSaveInBatch_issued]
    have := applyPuts_batchFrom items 0 hnd store i l hi
    simpa using this

/-- Witness for C1 on a concrete two-item page with every `PUT` failing:
the second item is mutated to priority 1, its `PUT` is issued, the muted
refetch still happens, and replaying the `PUT`s persists priority 1 for it. -/
theorem reorder_persists_positional_priorities_witness :
    (handleSaveInBatch [sampleLinkA, sampleLinkB] (fun _ => true)).items[1]? =
        some (setPriorityAt 1 sampleLinkB)
    ∧ (setPriorityAt 1 sampleLinkB).spec = some { sampleSpecB with priority := some 1 }
    ∧ (handleSaveInBatch [sampleLinkA, sampleLinkB] (fun _ => true)).refetch = { mute := true }
    ∧ applyPuts (fun _ => none)
        (handleSaveInBatch [sampleLinkA, sampleLinkB] (fun _ => true)).issued
        sampleLinkB.metadata.name = some (setPriorityAt 1 sampleLinkB) := by
  have h := reorder_persists_positional_priorities [sampleLinkA, sampleLinkB]
    (fun _ => true) (fun _ => none)
  refine ⟨(h.1 1 sampleLinkB (by decide)).1,
         (h.1 1 sampleLinkB (by decide)).2 sampleSpecB rfl,
         h.2.2.2.1, ?_⟩
  exact h.2.2.2.2 (by decide) 1 sampleLinkB (by decide)

/-! ## C2 -/

/-- C2: Fetch postcondition (`handleFetchLinks`).  After a successful fetch
the in-memory items are a permutation of the server items with each present
spec's priority defaulted; absent priority becomes 0; the page is sorted
ascending by defaulted priority whatever order the server returned it in;
and the sort is stable: for every priority value the equal-priority items
appear exactly in server order. -/
theorem fetch_success_sorted_stable (links0 : LinkListPage) (g : LinkGroup)
    (s : LinkGroupSpec) (names : List String) (opts : FetchOptions)
    (data : LinkListPage) (hs : g.spec = some s) (hl : s.links = some names) :
    List.Perm (handleFetchLinks links0 (some g) opts (.ok data)).links.items
        (data.items.map defaultPriority)
    ∧ (∀ l s₀, l.spec = some s₀ →
        (defaultPriority l).spec = some { s₀ with priority := some (s₀.priority.getD 0) })
    ∧ (handleFetchLinks links0 (some g) opts (.ok data)).links.items.Pairwise
        (fun a b => sortKey a ≤ sortKey b)
    ∧ ∀ p : Nat,
        (handleFetchLinks links0 (some g) opts (.ok data)).links.items.filter
            (fun y => sortKey y == p) =
          (data.items.map defaultPriority).filter (fun y => sortKey y == p) := by
  have hres : (handleFetchLinks links0 (some g) opts (.ok data)).links.items =
      sortByPriority (data.items.map defaultPriority) := by
    simp [handleFetchLinks, hs, hl]
  refine ⟨?_, ?_, ?_, ?_⟩
  · rw [hres]; exact sortByPriority_perm _
  · intro l s₀ hspec
    simp [defaultPriority, hspec]
  · rw [hres]; exact sortByPriority_sorted _
  · intro p; rw [hres]; exact filter_sortByPriority _ p

/-- Witness for C2: the server returns `sampleLinkB` (priority 0) then
`sampleLinkA` (absent priority).  After the fetch both carry priority 0 and
keep the server's relative order (stability, no further tie-break). -/
theorem fetch_success_sorted_stable_witness :
    (handleFetchLinks initialPage (some sampleGroup) {} (.ok samplePage)).links.items =
        [defaultPriority sampleLinkB, defaultPriority sampleLinkA]
    ∧ (defaultPriority sampleLinkA).spec = some { sampleSpecA with priority := some 0 } := by
  have h := fetch_success_sorted_stable initialPage sampleGroup sampleGroupSpec
    ["link-a", "link-b"] {} samplePage rfl rfl
  refine ⟨?_, ?_⟩
  · have hfilter := h.2.2.2 0
    have hperm := h.1
    decide
  · exact h.2.1 sampleLinkA sampleSpecA rfl

/-! ## C5 -/

/-- C5: Fetch failure atomicity (`handleFetchLinks`).  When the awaited list
request rejects, the error is logged, the handler returns normally (it is a
total function into `FetchOutcome`, the exception is swallowed by `catch`),
the `finally` block clears the loading flag, and the previously held items
are retained unchanged — no partial page replaces them. -/
theorem fetch_failure_keeps_page (links0 : LinkListPage) (g : LinkGroup)
    (s : LinkGroupSpec) (names : List String) (opts : FetchOptions)
    (hs : g.spec = some s) (hl : s.links = some names) :
    (handleFetchLinks links0 (some g) opts (.error ())).links.items = links0.items
    ∧ (handleFetchLinks links0 (some g) opts (.error ())).loading = false
    ∧ (handleFetchLinks links0 (some g) opts (.error ())).logged = true
    ∧ (handleFetchLinks links0 (some g) opts (.error ())).request.isSome := by
  cases hp : opts.page <;> simp [handleFetchLinks, hs, hl, hp]

/-- Witness for C5 at a concrete failing fetch over a non-trivial held page. -/
theorem fetch_failure_keeps_page_witness :
    (handleFetchLinks samplePage (some sampleGroup) { page := some 2 }
        (.error ())).links.items = [sampleLinkB, sampleLinkA]
    ∧ (handleFetchLinks samplePage (some sampleGroup) { page := some 2 }
        (.error ())).loading = false := by
  have h := fetch_failure_keeps_page samplePage sampleGroup sampleGroupSpec
    ["link-a", "link-b"] { page := some 2 } rfl rfl
  exact ⟨h.1, h.2.1⟩

/-! ## C9 -/

/-- C9: Membership-guard edge of `handleFetchLinks`.  The list request is
skipped exactly when `selectedGroup?.spec?.links` is absent; in the skipped
case the held items are unchanged and, when not muted, the loading flag is
still switched on and then cleared by `finally`; a present-but-empty
membership array is **not** skipped: a request with `fieldSelector`
`name=()` is issued. -/
theorem fetch_membership_guard (links0 : LinkListPage) (g : Option LinkGroup)
    (opts : FetchOptions) (resp : Except Unit LinkListPage) :
    ((handleFetchLinks links0 g opts resp).request = none ↔
        ((g.bind (·.spec)).bind (·.links)) = none)
    ∧ (((g.bind (·.spec)).bind (·.links)) = none →
        (handleFetchLinks links0 g opts resp).links.items = links0.items
        ∧ (opts.mute = false → (handleFetchLinks links0 g opts resp).loadingShown = true)
        ∧ (handleFetchLinks links0 g opts resp).loading = false)
    ∧ (((g.bind (·.spec)).bind (·.links)) = some [] →
        (handleFetchLinks links0 g opts resp).request =
          some (.listLinks (opts.page.getD links0.page) links0.size "name=()")) := by
  rcases hv : (g.bind (·.spec)).bind (·.links) with _ | names
  · refine ⟨?_, ?_, ?_⟩
    · cases hp : opts.page <;> simp [handleFetchLinks, hv, hp]
    · intro _
      cases hp : opts.page <;> simp [handleFetchLinks, hv, hp]
    · intro hcontra
      simp [hv] at hcontra
  · refine ⟨?_, ?_, ?_⟩
    · cases hp : opts.page <;> cases resp <;> simp [handleFetchLinks, hv, hp]
    · intro hcontra
      simp [hv] at hcontra
    · intro hEmpty
      injection hEmpty with hnames
      subst hnames
      have hsel : membershipSelector [] = "name=()" := rfl
      cases hp : opts.page <;> cases resp <;>
        simp [handleFetchLinks, hv, hp, hsel, Option.getD]

/-- Witness for C9: with no group selected and an unmuted call the request is
skipped, the items stay, loading was toggled on and ends cleared; with the
sample group whose membership is the empty array, the request goes out with
selector `name=()`. -/
theorem fetch_membership_guard_witness :
    (handleFetchLinks samplePage none { mute := false } (.error ())).request = none
    ∧ (handleFetchLinks samplePage none { mute := false } (.error ())).links.items =
        [sampleLinkB, sampleLinkA]
    ∧ (handleFetchLinks samplePage none { mute := false } (.error ())).loadingShown = true
    ∧ (handleFetchLinks samplePage none { mute := false } (.error ())).loading = false
    ∧ (handleFetchLinks samplePage
          (some { sampleGroup with spec := some { sampleGroupSpec with links := some [] } })
          { mute := false } (.error ())).request =
        some (.listLinks samplePage.page samplePage.size "name=()") := by
  have h1 := fetch_membership_guard samplePage none { mute := false } (.error ())
  have h2 := fetch_membership_guard samplePage
    (some { sampleGroup with spec := some { sampleGroupSpec with links := some [] } })
    { mute := false } (.error ())
  refine ⟨h1.1.mpr rfl, (h1.2.1 rfl).1, (h1.2.1 rfl).2.1 rfl, (h1.2.1 rfl).2.2, ?_⟩
  exact h2.2.2 rfl

/-! ## C3 -/

/-- C3: Search view (`searchResults` getter).  With no index built or an
empty keyword the full page is returned itself, in order; with a non-empty
keyword every element of the view is an element of the full page — the very
same address, not a copy — so mutating a link through the filtered view is
mutating the link the full page holds: dereferencing that address after a
mutation shows the mutated object to both views. -/
theorem searchResults_identity (pageRefs : List Nat) (kw : String)
    (search : String → List Nat) :
    searchResultsGet pageRefs kw none = pageRefs
    ∧ searchResultsGet pageRefs "" (some search) = pageRefs
    ∧ (kw ≠ "" → ∀ a ∈ searchResultsGet pageRefs kw (some search),
        a ∈ pageRefs
        ∧ ∀ (h : LinkHeap) (f : Link → Link),
            (h.mutate a f).deref a = (h.deref a).map f) := by
  refine ⟨rfl, by simp [searchResultsGet], ?_⟩
  intro hkw a ha
  simp only [searchResultsGet, if_neg hkw] at ha
  rcases List.mem_filterMap.mp ha with ⟨i, _, hget⟩
  refine ⟨mem_of_getElemEq hget, ?_⟩
  intro h f
  simp only [LinkHeap.mutate, LinkHeap.deref]
  rcases hsl : h.store[a]? with _ | l
  · simp [hsl]
  · rcases List.getElem?_eq_some.mp hsl with ⟨hlt, _⟩
    simp [List.getElem?_set_eq_of_lt _ hlt, hsl]

/-- Witness for C3: page `[0, 1]`, a search returning position 1; the view
holds address 1 of the page, and bumping that link's priority through the
view is visible when the page dereferences the same address. -/
theorem searchResults_identity_witness :
    searchResultsGet [0, 1] "b" (some fun _ => [1]) = [1]
    ∧ (1 : Nat) ∈ ([0, 1] : List Nat)
    ∧ (LinkHeap.mutate ⟨[sampleLinkA, sampleLinkB]⟩ 1 (setPriorityAt 5)).deref 1 =
        some (setPriorityAt 5 sampleLinkB) := by
  have h := searchResults_identity [0, 1] "b" (fun _ => [1])
  have hmem := h.2.2 (by decide) 1 (by decide)
  exact ⟨by decide, hmem.1, by rw [hmem.2 ⟨[sampleLinkA, sampleLinkB]⟩ (setPriorityAt 5)]; rfl⟩

/-! ## C4 -/

/-- C4: Group assignment (`onLinkSaved`).  With a group selected (spec and
membership present), the handler persists — by a full-resource `PUT`, not a
patch — a copy of the group whose membership sequence is the old one with
the new link's name appended, then refetches the group list and the link
page, in that order.  The copy leaves the selected group value itself
untouched (the embedding is pure; `cloneDeep` is what licenses this). -/
theorem onLinkSaved_appends_membership (g : LinkGroup) (s : LinkGroupSpec)
    (ls : List String) (linkName : String) (hs : g.spec = some s)
    (hl : s.links = some ls) :
    onLinkSaved (some g) linkName =
      .ok [.put (Request.putGroup g.metadata.name
              { g with spec := some { s with links := some (ls ++ [linkName]) } }),
           .fetchGroups, .fetchLinks {}] := by
  simp [onLinkSaved, hs, hl]

/-- Witness for C4 on the sample group: the persisted body carries the old
membership plus `"link-new"`, and both refetches follow. -/
theorem onLinkSaved_appends_membership_witness :
    onLinkSaved (some sampleGroup) "link-new" =
      .ok [.put (Request.putGroup "group-g"
              { sampleGroup with spec := some { sampleGroupSpec with
                  links := some ["link-a", "link-b", "link-new"] } }),
           .fetchGroups, .fetchLinks {}] := by
  exact onLinkSaved_appends_membership sampleGroup sampleGroupSpec
    ["link-a", "link-b"] "link-new" rfl rfl

/-! ## C10 -/

/-- C10: No-selected-group edge of `onLinkSaved`.  With no group selected,
`cloneDeep(undefined)` is `undefined`, the `if` is skipped, so no group
write of any kind is issued — every group's membership is untouched — yet
the handler still refetches the group list and then the link page, and
completes without error. -/
theorem onLinkSaved_no_group (linkName : String) :
    onLinkSaved none linkName = .ok [.fetchGroups, .fetchLinks {}]
    ∧ ∀ r, SaveStep.put r ∉ ([.fetchGroups, .fetchLinks {}] : List SaveStep) := by
  exact ⟨rfl, by intro r; simp⟩

/-! ## C6 -/

theorem exportRecords_eq (items : List Link) (sel : List String)
    (stringify : Link → String) (hst : ∀ l, stringify l ≠ "") :
    exportRecords items sel stringify =
      (items.filter (fun l => sel.contains l.metadata.name)).map stringify := by
  induction items with
  | nil => rfl
  | cons x xs ih =>
      by_cases hx : x.metadata.name ∈ sel
      · have h1 : exportRecords (x :: xs) sel stringify =
            stringify x :: exportRecords xs sel stringify := by
          simp [exportRecords, List.filterMap_cons, hx, hst x]
        have h2 : (x :: xs).filter (fun l => sel.contains l.metadata.name) =
            x :: xs.filter (fun l => sel.contains l.metadata.name) := by
          simp [List.filter_cons, hx]
        rw [h1, h2, List.map_cons, ih]
      · have h1 : exportRecords (x :: xs) sel stringify = exportRecords xs sel stringify := by
          simp [exportRecords, List.filterMap_cons, hx]
        have h2 : (x :: xs).filter (fun l => sel.contains l.metadata.name) =
            xs.filter (fun l => sel.contains l.metadata.name) := by
          simp [List.filter_cons, hx]
        rw [h1, h2, ih]

/-- C6: Export (`handleExportSelectedLinks`).  The export is a no-op exactly
when the page holds zero items; otherwise (for any serializer that never
yields the empty string, as `yaml.stringify` of a record does not) the
records are exactly the serializations of the page's selected items in page
order — none for unselected items — and when the selected identifiers are
distinct and all present on a page with distinct names, there are exactly
as many records as selected identifiers. -/
theorem export_selected_records (items : List Link) (sel : List String)
    (stringify : Link → String) :
    (handleExportSelectedLinks items sel stringify = none ↔ items = [])
    ∧ ((∀ l, stringify l ≠ "") →
        exportRecords items sel stringify =
          (items.filter (fun l => sel.contains l.metadata.name)).map stringify)
    ∧ ((∀ l, stringify l ≠ "") → sel.Nodup →
        (items.map (·.metadata.name)).Nodup →
        (∀ s ∈ sel, s ∈ items.map (·.metadata.name)) →
        (exportRecords items sel stringify).length = sel.length) := by
  refine ⟨?_, fun hst => exportRecords_eq items sel stringify hst, ?_⟩
  · simp [handleExportSelectedLinks, List.length_eq_zero]
  · intro hst hselnd hnamesnd hsub
    rw [exportRecords_eq items sel stringify hst, List.length_map]
    have hlen : (items.filter (fun l => sel.contains l.metadata.name)).length =
        ((items.map (·.metadata.name)).filter (fun n => sel.contains n)).length := by
      rw [List.filter_map, List.length_map]
      rfl
    rw [hlen]
    have hperm : List.Perm
        ((items.map (·.metadata.name)).filter (fun n => sel.contains n)) sel := by
      refine (List.perm_ext_iff_of_nodup (hnamesnd.filter _) hselnd).mpr ?_
      intro a
      simp only [List.mem_filter, List.elem_iff]
      exact ⟨fun h => h.2, fun h => ⟨hsub a h, h⟩⟩
    exact hperm.length_eq

/-- Witness for C6: a two-item page with one selected identifier exports
exactly that one record, and a page of zero items is a no-op. -/
theorem export_selected_records_witness :
    (handleExportSelectedLinks [] ["link-b"] (fun _ => "doc") = none)
    ∧ exportRecords [sampleLinkA, sampleLinkB] ["link-b"] (fun _ => "doc") = ["doc"]
    ∧ (exportRecords [sampleLinkA, sampleLinkB] ["link-b"] (fun _ => "doc")).length = 1 := by
  have h := export_selected_records [sampleLinkA, sampleLinkB] ["link-b"] (fun _ => "doc")
  have hempty := export_selected_records [] ["link-b"] (fun _ => "doc")
  refine ⟨hempty.1.mpr rfl, ?_, ?_⟩
  · rw [h.2.1 (fun l => by decide)]
    decide
  · exact h.2.2 (fun l => by decide) (by decide) (by decide) (by decide)

/-! ## C7 -/

/-- C7 counterexample: the claim says "'next' from the last item clears the
selection".  On the one-item page `[sampleLinkA]` with `sampleLinkA`
selected (the last item), `handleSelectNext` leaves the selection on
`sampleLinkA` — it is not cleared — because line 134 only assigns when
`currentIndex !== items.length - 1`, and at the last index it assigns
nothing at all. -/
theorem next_from_last_counterexample :
    handleSelectNext [sampleLinkA] (some sampleLinkA) = some sampleLinkA
    ∧ handleSelectNext [sampleLinkA] (some sampleLinkA) ≠ none := by
  decide

/-- C7 amended: over the full displayed page, "previous" past the start
clears the selection (from the first item, or with nothing selected);
"next" from the last item leaves the selection unchanged rather than
clearing it (no wraparound either way); and "next" with no selection
selects the first item of the page. -/
theorem navigation_bounds_amended (x l : Link) (xs items : List Link) :
    handleSelectPrevious (l :: xs) (some l) = none
    ∧ handleSelectPrevious items none = none
    ∧ handleSelectNext (x :: xs) none = some x
    ∧ (findIndexJS items (some l.metadata.name) = (items.length : Int) - 1 →
        handleSelectNext items (some l) = some l) := by
  refine ⟨?_, ?_, ?_, ?_⟩
  · simp [handleSelectPrevious, findIndexJS, List.findIdx?_cons]
  · have hnone : items.findIdx? (fun _ : Link => false) = none := by
      simp [List.findIdx?_eq_none_iff]
    simp [handleSelectPrevious, findIndexJS, hnone]
  · simp [handleSelectNext]
  · intro hlast
    simp [handleSelectNext, hlast]

/-- Witness for C7's amended statement on a one-item page, where the only
item is both first and last. -/
theorem navigation_bounds_amended_witness :
    handleSelectPrevious [sampleLinkB] (some sampleLinkB) = none
    ∧ handleSelectPrevious [sampleLinkB] none = none
    ∧ handleSelectNext [sampleLinkB] none = some sampleLinkB
    ∧ handleSelectNext [sampleLinkB] (some sampleLinkB) = some sampleLinkB := by
  have h := navigation_bounds_amended sampleLinkB sampleLinkB [] [sampleLinkB]
  exact ⟨h.1, h.2.1, h.2.2.1, h.2.2.2 (by decide)⟩

/-! ## C8 -/

/-- C8: Single delete (`handleDelete`).  The confirm handler fires the
`DELETE` without awaiting it, so whatever the request's fate the `catch`
clause never runs, the issued request list is the single delete, the
`finally` refetch (unmuted, default options) is always requested, and the
whole outcome is independent of whether the delete fails — its failure is
only ever observable through the later refetch. -/
theorem delete_fire_and_forget (link : Link) (fails : Request → Bool) :
    (handleDeleteConfirm link fails).caught = false
    ∧ (handleDeleteConfirm link fails).issued = [Request.deleteLink link.metadata.name]
    ∧ (handleDeleteConfirm link fails).refetch = {}
    ∧ handleDeleteConfirm link fails = handleDeleteConfirm link (fun _ => false) := by
  refine ⟨rfl, rfl, rfl, rfl⟩
